import Mathlib

/-!
Shallow embedding of the rhine conversation-tree and request-dispatch
pipeline (`src/chat/message.rs`, `src/chat/chat_base.rs`,
`src/chat/chat_single.rs`, `src/chat/chat_multi.rs`,
`src/schema/tool_schema.rs`), together with theorems settling the
specification claims about it.

Conventions:
- Rust `Vec<T>` is `List T`, `Option` is `Option`, `Result<T, E>` is
  `Except E T`; in-place mutation becomes explicit state passing.
- Rust string operations are re-implemented over `List Char` so that every
  definition evaluates by kernel reduction (`decide`/`rfl`).
- `serde_json::Value` is modelled by the `JValue` inductive below, with a
  fuel-based executable parser and a serializer; JSON numbers are modelled
  as integers (the payloads relevant to the claims are integer token
  counts).
-/

namespace Rhine

/-! ## Character-list string utilities -/

/-- ASCII whitespace test (the texts in scope contain no exotic Unicode
whitespace, so this models Rust `char::is_whitespace` faithfully here). -/
def isWsChar (c : Char) : Bool :=
  c = ' ' || c = '\t' || c = '\n' || c = '\r'

/-- Rust `str::trim` on a character list. -/
def trimChars (cs : List Char) : List Char :=
  ((cs.dropWhile isWsChar).reverse.dropWhile isWsChar).reverse

/-- Rust `str::trim` on a string. -/
def trimStr (s : String) : String := ⟨trimChars s.data⟩

/-- Rust `str::split(sep)`: every piece is kept, including empty ones. -/
def splitOnChar (sep : Char) : List Char → List (List Char)
| [] => [[]]
| c :: cs =>
  let rest := splitOnChar sep cs
  if c = sep then [] :: rest
  else
    match rest with
    | [] => [[c]]
    | piece :: pieces => (c :: piece) :: pieces

/-- Rust `str::split('\n')` on a string. -/
def splitLines (s : String) : List String :=
  (splitOnChar '\n' s.data).map (fun cs => ⟨cs⟩)

/-- Rust `str::strip_prefix`: `some rest` when `pre` is a leading run. -/
def stripPre : List Char → List Char → Option (List Char)
| [], cs => some cs
| _ :: _, [] => none
| p :: ps, c :: cs => if p = c then stripPre ps cs else none

/-- Split at the first occurrence of `pat`: returns the text before the
match and the text after the match. -/
def splitFirstSub (pat : List Char) : List Char → Option (List Char × List Char)
| [] =>
  match stripPre pat [] with
  | some rest => some ([], rest)
  | none => none
| c :: cs =>
  match stripPre pat (c :: cs) with
  | some rest => some ([], rest)
  | none =>
    match splitFirstSub pat cs with
    | some (b, a) => some (c :: b, a)
    | none => none

/-- Substring occurrence test. -/
def containsSub (pat cs : List Char) : Bool := (splitFirstSub pat cs).isSome

/-- Fuelled worker for `replaceAll`; the fuel bounds the number of matches. -/
def replaceAllAux : Nat → List Char → List Char → List Char → List Char
| 0, _, _, cs => cs
| fuel + 1, pat, repl, cs =>
  match splitFirstSub pat cs with
  | none => cs
  | some (b, a) => b ++ repl ++ replaceAllAux fuel pat repl a

/-- Rust `String::replace`: non-overlapping left-to-right replacement of
every occurrence. (All patterns used by the source are non-empty.) -/
def replaceAll (s pat repl : String) : String :=
  if pat.data.isEmpty then s
  else ⟨replaceAllAux (s.data.length + 1) pat.data repl.data s.data⟩

/-! ## Role (`message.rs` lines 26-81) -/

/-- Chat role enumeration (`message.rs` lines 30-47). -/
inductive Role where
| system
| user
| assistant
| character (name : String)
deriving DecidableEq, Repr

/-- Rust `impl From<&str> for Role` (`message.rs` lines 49-67). -/
def Role.ofStr (s : String) : Role :=
  match s with
  | "system" => .system
  | "user" => .user
  | "assistant" => .assistant
  | other => .character other

/-- Rust `impl ToString for Role` (`message.rs` lines 69-81). -/
def Role.toStr : Role → String
| .system => "system"
| .user => "user"
| .assistant => "assistant"
| .character name => name

/-! ## Messages tree (`message.rs` lines 83-404) -/

/-- Message error enumeration (`message.rs` lines 8-24). -/
inductive MessageError where
| invalidPath (path : List Nat)
| invalidIndex (index : Nat) (path : List Nat)
| unsupportedOperation (msg : String)
deriving DecidableEq, Repr

/-- Message tree node (`message.rs` lines 85-102): stored path, role,
content and ordered child list. -/
inductive Messages where
| mk (path : List Nat) (role : Role) (content : String) (child : List Messages)
deriving Repr

/-- Projection for the stored `path` field. -/
def Messages.path : Messages → List Nat
| .mk p _ _ _ => p

/-- Projection for the `role` field. -/
def Messages.role : Messages → Role
| .mk _ r _ _ => r

/-- Projection for the `content` field. -/
def Messages.content : Messages → String
| .mk _ _ c _ => c

/-- Projection for the `child` field. -/
def Messages.child : Messages → List Messages
| .mk _ _ _ ch => ch

/-- Rust `Messages::new` (`message.rs` lines 119-126). -/
def Messages.new (role : Role) (content : String) : Messages :=
  .mk [] role content []

/-- Rust `Messages::new_with_path` (`message.rs` lines 139-146). -/
def Messages.new_with_path (path : List Nat) (role : Role) (content : String) : Messages :=
  .mk path role content []

/-- Rust `Messages::get_node_by_path` (`message.rs` lines 161-171):
recursive descent by child index; `none` when an index is out of range. -/
def Messages.get_node_by_path : Messages → List Nat → Option Messages
| m, [] => some m
| m, i :: rest =>
  if h : i < m.child.length then
    (m.child.get ⟨i, h⟩).get_node_by_path rest
  else
    none

/-- Replace the `i`-th child; models writing through the `&mut` reference
returned by `get_node_by_path_mut` one descent step at a time. -/
def Messages.setChildAt (m : Messages) (i : Nat) (c : Messages) : Messages :=
  .mk m.path m.role m.content (m.child.set i c)

/-- Worker for `Messages.add`: descends the parent path while remembering
the full original path, because the new leaf's stored path is built from
the argument path (`message.rs` lines 318-319). -/
def Messages.addAux : Messages → List Nat → List Nat → Role → String → Except MessageError Messages
| m, [], fullPath, role, content =>
  .ok (.mk m.path m.role m.content
        (m.child ++ [Messages.new_with_path (fullPath ++ [m.child.length]) role content]))
| m, i :: rest, fullPath, role, content =>
  if h : i < m.child.length then
    match (m.child.get ⟨i, h⟩).addAux rest fullPath role content with
    | .ok c2 => .ok (m.setChildAt i c2)
    | .error e => .error e
  else
    .error (.invalidPath fullPath)

/-- Rust `Messages::add` (`message.rs` lines 312-327): resolve the parent,
append a new leaf whose stored path is `path ++ [old_child_count]`. -/
def Messages.add (m : Messages) (path : List Nat) (role : Role) (content : String) :
    Except MessageError Messages :=
  m.addAux path path role content

mutual

/-- Rust `Messages::update_node_paths` (`message.rs` lines 393-404): set
the node's path to `parent_path ++ [index]` then recursively renumber all
children. -/
def Messages.update_node_paths : Messages → List Nat → Nat → Messages
| .mk _ r c children, parentPath, index =>
  .mk (parentPath ++ [index]) r c (updateChildrenPaths (parentPath ++ [index]) 0 children)

/-- The `for (i, child) in node.child.iter_mut().enumerate()` loop inside
`update_node_paths`, with `i` starting at the given index. -/
def updateChildrenPaths : List Nat → Nat → List Messages → List Messages
| _, _, [] => []
| q, i, c :: cs => c.update_node_paths q i :: updateChildrenPaths q (i + 1) cs

end

/-- The mutation performed by `Messages::delete` at the parent node
(`message.rs` lines 372-380): remove the child at `index`, then renumber
every remaining child at position `index` onwards (the
`enumerate().skip(index)` loop) together with its whole subtree. -/
def Messages.removeChildAndRenumber : Messages → List Nat → Nat → Messages
| .mk p r c children, parentPath, index =>
  .mk p r c (children.take index ++ updateChildrenPaths parentPath index (children.drop (index + 1)))

/-- Worker for `Messages.delete`: descends `parentPath` (errors carry the
full parent path, as in the Rust `InvalidPath(parent_path.to_vec())`). -/
def Messages.deleteAux : Messages → List Nat → List Nat → Nat → Except MessageError Messages
| m, [], parentPath, index =>
  if index < m.child.length then .ok (m.removeChildAndRenumber parentPath index)
  else .error (.invalidIndex index parentPath)
| m, i :: rest, parentPath, index =>
  if h : i < m.child.length then
    match (m.child.get ⟨i, h⟩).deleteAux rest parentPath index with
    | .ok c2 => .ok (m.setChildAt i c2)
    | .error e => .error e
  else
    .error (.invalidPath parentPath)

/-- Rust `Messages::delete` (`message.rs` lines 357-383). -/
def Messages.delete (m : Messages) (path : List Nat) : Except MessageError Messages :=
  match path.getLast? with
  | none => .error (.unsupportedOperation "Cannot delete root node")
  | some index => m.deleteAux path.dropLast path.dropLast index

mutual

/-- Specification-side path invariant: the node reached below ambient path
`q` stores exactly `q`, recursively for all children. -/
def pathInv : List Nat → Messages → Bool
| q, .mk p _ _ children => p == q && pathInvChildren q 0 children

/-- Path invariant over a child list whose first element sits at sibling
index `i` below ambient path `q`. -/
def pathInvChildren : List Nat → Nat → List Messages → Bool
| _, _, [] => true
| q, i, c :: cs => pathInv (q ++ [i]) c && pathInvChildren q (i + 1) cs

end

/-! ## Renumbering invariant lemmas (towards claim C1) -/

mutual

theorem pathInv_update (q : List Nat) (i : Nat) (m : Messages) :
    pathInv (q ++ [i]) (m.update_node_paths q i) = true := by
  cases m with
  | mk p r c children =>
    simp only [Messages.update_node_paths, pathInv, beq_self_eq_true, Bool.true_and]
    exact pathInvChildren_update (q ++ [i]) 0 children

theorem pathInvChildren_update (q : List Nat) (i : Nat) (cs : List Messages) :
    pathInvChildren q i (updateChildrenPaths q i cs) = true := by
  cases cs with
  | nil => simp [updateChildrenPaths, pathInvChildren]
  | cons c cs =>
    simp only [updateChildrenPaths, pathInvChildren, Bool.and_eq_true]
    exact ⟨pathInv_update q i c, pathInvChildren_update q (i + 1) cs⟩

end

theorem pathInvChildren_append (q : List Nat) (i : Nat) (xs ys : List Messages) :
    pathInvChildren q i (xs ++ ys)
      = (pathInvChildren q i xs && pathInvChildren q (i + xs.length) ys) := by
  induction xs generalizing i with
  | nil => simp [pathInvChildren]
  | cons x xs ih =>
    simp [pathInvChildren, ih, Bool.and_assoc, Nat.add_comm, Nat.add_assoc, Nat.add_left_comm]

theorem pathInvChildren_take (q : List Nat) (i k : Nat) (cs : List Messages)
    (h : pathInvChildren q i cs = true) : pathInvChildren q i (cs.take k) = true := by
  induction cs generalizing i k with
  | nil => simp [pathInvChildren]
  | cons c cs ih =>
    cases k with
    | zero => simp [pathInvChildren]
    | succ k =>
      simp only [List.take, pathInvChildren, Bool.and_eq_true] at h ⊢
      exact ⟨h.1, ih (i + 1) k h.2⟩

theorem pathInv_get (q : List Nat) (j : Nat) (cs : List Messages)
    (h : pathInvChildren q j cs = true) (k : Nat) (hk : k < cs.length) :
    pathInv (q ++ [j + k]) (cs.get ⟨k, hk⟩) = true := by
  induction cs generalizing j k with
  | nil => simp at hk
  | cons c cs ih =>
    simp only [pathInvChildren, Bool.and_eq_true] at h
    cases k with
    | zero => simpa using h.1
    | succ k =>
      have hk2 : k < cs.length := Nat.lt_of_succ_lt_succ hk
      have := ih (j + 1) h.2 k hk2
      simpa [Nat.add_comm, Nat.add_assoc, Nat.add_left_comm] using this

theorem pathInvChildren_set (q : List Nat) (j k : Nat) (cs : List Messages) (c2 : Messages)
    (h : pathInvChildren q j cs = true) (h2 : pathInv (q ++ [j + k]) c2 = true) :
    pathInvChildren q j (cs.set k c2) = true := by
  induction cs generalizing j k with
  | nil => simp [pathInvChildren]
  | cons c cs ih =>
    simp only [pathInvChildren, Bool.and_eq_true] at h
    cases k with
    | zero =>
      simp only [List.set, pathInvChildren, Bool.and_eq_true]
      exact ⟨by simpa using h2, h.2⟩
    | succ k =>
      simp only [List.set, pathInvChildren, Bool.and_eq_true]
      refine ⟨h.1, ih (j + 1) k h.2 ?_⟩
      simpa [Nat.add_comm, Nat.add_assoc, Nat.add_left_comm] using h2

theorem pathInv_removeChild (q : List Nat) (index : Nat) (m : Messages)
    (hidx : index < m.child.length) (h : pathInv q m = true) :
    pathInv q (m.removeChildAndRenumber q index) = true := by
  cases m with
  | mk p r c children =>
    simp only [Messages.child] at hidx
    simp only [pathInv, Messages.removeChildAndRenumber, Bool.and_eq_true] at h ⊢
    refine ⟨h.1, ?_⟩
    rw [pathInvChildren_append]
    have hlen : (children.take index).length = index := by
      simp [List.length_take, Nat.min_eq_left (Nat.le_of_lt hidx)]
    rw [hlen]
    simp only [Nat.zero_add, Bool.and_eq_true]
    exact ⟨pathInvChildren_take q 0 index children h.2, pathInvChildren_update q index _⟩

theorem deleteAux_preserves (rest : List Nat) (q fullQ : List Nat) (index : Nat)
    (m m2 : Messages) (hfull : fullQ = q ++ rest)
    (hInv : pathInv q m = true)
    (hDel : m.deleteAux rest fullQ index = .ok m2) :
    pathInv q m2 = true := by
  induction rest generalizing q m m2 with
  | nil =>
    simp only [List.append_nil] at hfull
    rw [hfull] at hDel
    by_cases hidx : index < m.child.length
    · simp only [Messages.deleteAux, hidx, if_true, Except.ok.injEq] at hDel
      subst hDel
      exact pathInv_removeChild q index m hidx hInv
    · simp [Messages.deleteAux, hidx] at hDel
  | cons i rest ih =>
    by_cases h : i < m.child.length
    · simp only [Messages.deleteAux, h, dif_pos] at hDel
      cases hrec : (m.child.get ⟨i, h⟩).deleteAux rest fullQ index with
      | error e => rw [hrec] at hDel; simp at hDel
      | ok c2 =>
        rw [hrec] at hDel
        simp only [Except.ok.injEq] at hDel
        subst hDel
        cases m with
        | mk p r c children =>
          simp only [Messages.child] at h hrec
          simp only [pathInv, Bool.and_eq_true] at hInv
          have hchild : pathInv (q ++ [i]) (children.get ⟨i, h⟩) = true := by
            simpa using pathInv_get q 0 children hInv.2 i h
          have hc2 : pathInv (q ++ [i]) c2 = true := by
            refine ih (q ++ [i]) (children.get ⟨i, h⟩) c2 ?_ hchild hrec
            simp [hfull]
          simp only [Messages.setChildAt, Messages.path, Messages.role, Messages.content,
            Messages.child, pathInv, Bool.and_eq_true]
          refine ⟨hInv.1, ?_⟩
          exact pathInvChildren_set q 0 i children c2 hInv.2 (by simpa using hc2)
    · simp [Messages.deleteAux, h] at hDel

theorem pathInv_getNode (r : List Nat) (q : List Nat) (m n : Messages)
    (hInv : pathInv q m = true) (hGet : m.get_node_by_path r = some n) :
    n.path = q ++ r := by
  induction r generalizing q m with
  | nil =>
    simp only [Messages.get_node_by_path, Option.some.injEq] at hGet
    subst hGet
    cases m with
    | mk p rr c children =>
      simp only [pathInv, Bool.and_eq_true, beq_iff_eq] at hInv
      simp [Messages.path, hInv.1]
  | cons i rest ih =>
    by_cases h : i < m.child.length
    · simp only [Messages.get_node_by_path, h, dif_pos] at hGet
      have hchild : pathInv (q ++ [i]) (m.child.get ⟨i, h⟩) = true := by
        cases m with
        | mk p rr c children =>
          simp only [pathInv, Bool.and_eq_true] at hInv
          simpa using pathInv_get q 0 children hInv.2 i (by simpa using h)
      have := ih (q ++ [i]) (m.child.get ⟨i, h⟩) hchild hGet
      simpa [List.append_assoc] using this
    · simp [Messages.get_node_by_path, h] at hGet

/-! ## Claim C1 -/

/-- C1: for every message tree satisfying the stored-path invariant (which the
spec states always holds: a node's `path` always equals its position reachable
from its session root) and every path `p` on which `delete(p)` succeeds, every
remaining node's stored `path` field equals the path re-derived by root-down
traversal: the node reached at position `q` stores exactly `q`. -/
theorem delete_rederives_paths (m m2 : Messages) (p q : List Nat) (n : Messages)
    (hInv : pathInv [] m = true) (hDel : m.delete p = .ok m2)
    (hGet : m2.get_node_by_path q = some n) : n.path = q := by
  have h2 : pathInv [] m2 = true := by
    unfold Messages.delete at hDel
    cases hp : p.getLast? with
    | none => rw [hp] at hDel; simp at hDel
    | some index =>
      rw [hp] at hDel
      exact deleteAux_preserves p.dropLast [] p.dropLast index m m2 (by simp) hInv hDel
  simpa using pathInv_getNode q [] m2 n h2 hGet

/-- Concrete tree used by the C1 witness. -/
def c1TreeBefore : Messages :=
  Messages.mk [] .system "root"
    [Messages.mk [0] .user "a" [Messages.mk [0, 0] .assistant "a0" []],
     Messages.mk [1] .user "b" [],
     Messages.mk [2] .user "c" [Messages.mk [2, 0] .assistant "c0" []]]

/-- The tree `c1TreeBefore` after `delete([1])`: the old child 2 moved to
index 1 and its subtree was renumbered. -/
def c1TreeAfter : Messages :=
  Messages.mk [] .system "root"
    [Messages.mk [0] .user "a" [Messages.mk [0, 0] .assistant "a0" []],
     Messages.mk [1] .user "c" [Messages.mk [1, 0] .assistant "c0" []]]

/-- Witness for C1 at a concrete tree: deleting child 1 renumbers the old
child 2 and its whole subtree, and the node now reachable at `[1, 0]` stores
exactly `[1, 0]`. -/
theorem delete_rederives_paths_witness :
    pathInv [] c1TreeBefore = true ∧
    c1TreeBefore.delete [1] = .ok c1TreeAfter ∧
    c1TreeAfter.get_node_by_path [1, 0] = some (Messages.mk [1, 0] .assistant "c0" []) ∧
    (Messages.mk [1, 0] .assistant "c0" []).path = [1, 0] :=
  ⟨by decide, by rfl, by rfl,
   delete_rederives_paths c1TreeBefore c1TreeAfter [1] [1, 0]
     (Messages.mk [1, 0] .assistant "c0" []) (by decide) (by rfl) (by rfl)⟩

/-! ## Claim C2: `add` and the Session-level cursor -/

theorem get_concat_length (xs : List Messages) (x : Messages)
    (h : xs.length < (xs ++ [x]).length) : (xs ++ [x]).get ⟨xs.length, h⟩ = x :=
  List.get_of_append rfl rfl

theorem get_node_by_path_setChildAt (m c : Messages) (i : Nat) (r : List Nat)
    (h : i < m.child.length) :
    (m.setChildAt i c).get_node_by_path (i :: r) = c.get_node_by_path r := by
  cases m with
  | mk p rr cnt children =>
    simp only [Messages.setChildAt, Messages.child, Messages.get_node_by_path]
    have hlen : i < (children.set i c).length := by simpa using h
    simp only [Messages.child, hlen, dif_pos]
    congr 1
    exact List.get_set_eq hlen

theorem addAux_spec (rest : List Nat) (fullP : List Nat) (m parent : Messages)
    (role : Role) (content : String)
    (hGet : m.get_node_by_path rest = some parent) :
    ∃ m2, m.addAux rest fullP role content = .ok m2 ∧
      m2.get_node_by_path (rest ++ [parent.child.length])
        = some (Messages.new_with_path (fullP ++ [parent.child.length]) role content) := by
  induction rest generalizing m with
  | nil =>
    simp only [Messages.get_node_by_path, Option.some.injEq] at hGet
    subst hGet
    refine ⟨_, rfl, ?_⟩
    cases m with
    | mk p rr cnt children =>
      simp only [Messages.child, List.nil_append, Messages.get_node_by_path]
      have hlen : children.length < (children ++ [Messages.new_with_path
          (fullP ++ [children.length]) role content]).length := by
        simp
      simp only [Messages.child, hlen, dif_pos]
      rw [get_concat_length]
  | cons i rest ih =>
    by_cases h : i < m.child.length
    · simp only [Messages.get_node_by_path, h, dif_pos] at hGet
      obtain ⟨c2, hc2, hc2get⟩ := ih (m.child.get ⟨i, h⟩) hGet
      refine ⟨m.setChildAt i c2, ?_, ?_⟩
      · simp only [Messages.addAux, h, dif_pos, hc2]
      · rw [List.cons_append, get_node_by_path_setChildAt m c2 i _ h]
        exact hc2get
    · simp [Messages.get_node_by_path, h] at hGet

/-- Modelled from the spec: the Session-level state, a message tree root plus
the `default_path` cursor ("last-written node's full address", spec §3). The
Session type itself is not under `src/` — only `chat_single.rs` references
`session.default_path` — so it is modelled from the spec's description, with
the single `Messages` root owned by `BaseChat` as its tree. -/
structure Session where
  root : Messages
  default_path : List Nat

/-- Modelled from the spec: Session-level
`add(parent_path, role, content) -> new_path` — resolves the parent, appends
via `Messages::add`, returns the new path `parent_path + [old_child_count]`,
and "updates `default_path` to the new path". -/
def Session.add (s : Session) (parentPath : List Nat) (role : Role) (content : String) :
    Except MessageError (Session × List Nat) :=
  match s.root.get_node_by_path parentPath with
  | none => .error (.invalidPath parentPath)
  | some parent =>
    match s.root.add parentPath role content with
    | .ok root2 =>
      .ok ({ root := root2, default_path := parentPath ++ [parent.child.length] },
           parentPath ++ [parent.child.length])
    | .error e => .error e

/-- C2: for every valid parent path `p`, `add(p, role, content)` appends a new
leaf whose stored path is `p ++ [old_child_count]` and returns that path, and
the Session-level `default_path` cursor is updated to the new node's path. -/
theorem session_add_appends_leaf_and_moves_cursor
    (s : Session) (p : List Nat) (role : Role) (content : String) (parent : Messages)
    (hGet : s.root.get_node_by_path p = some parent) :
    ∃ s2, s.add p role content = .ok (s2, p ++ [parent.child.length]) ∧
      s2.default_path = p ++ [parent.child.length] ∧
      s2.root.get_node_by_path (p ++ [parent.child.length])
        = some (Messages.mk (p ++ [parent.child.length]) role content []) := by
  obtain ⟨m2, hAdd, hLeaf⟩ := addAux_spec p p s.root parent role content hGet
  refine ⟨{ root := m2, default_path := p ++ [parent.child.length] }, ?_, rfl, ?_⟩
  · simp only [Session.add, hGet]
    simp only [Messages.add] at hAdd ⊢
    rw [hAdd]
  · exact hLeaf

/-- Witness for C2: adding under parent path `[0]` of a concrete two-node tree
creates the leaf at `[0, 0]`, returns that path and moves the cursor there. -/
theorem session_add_appends_leaf_and_moves_cursor_witness :
    (Session.mk (Messages.mk [] .system "root" [Messages.mk [0] .user "hi" []]) []).root.get_node_by_path [0]
      = some (Messages.mk [0] .user "hi" []) ∧
    ∃ s2, (Session.mk (Messages.mk [] .system "root" [Messages.mk [0] .user "hi" []]) []).add
        [0] .assistant "yo" = .ok (s2, [0, 0]) ∧
      s2.default_path = [0, 0] ∧
      s2.root.get_node_by_path [0, 0] = some (Messages.mk [0, 0] .assistant "yo" []) :=
  ⟨by rfl,
   session_add_appends_leaf_and_moves_cursor
     (Session.mk (Messages.mk [] .system "root" [Messages.mk [0] .user "hi" []]) [])
     [0] .assistant "yo" (Messages.mk [0] .user "hi" []) (by rfl)⟩

/-! ## Wire-format transform and context assembly (`message.rs` lines 419-538) -/

/-- Wire-format message: the `HashMap<String, String>` produced by
`to_api_format` always has exactly the two keys "role" and "content"
(`message.rs` lines 444-447), so it is modelled as a record. -/
structure ApiMessage where
  role : String
  content : String
deriving DecidableEq, Repr

/-- Rust `Messages::to_api_format` (`message.rs` lines 419-448). -/
def Messages.to_api_format (m : Messages) (current_speaker : Role) : ApiMessage :=
  match m.role with
  | .system => ⟨"system", m.content⟩
  | .user => ⟨"user", m.content⟩
  | .assistant => ⟨"assistant", m.content⟩
  | .character c =>
    if m.role = current_speaker then ⟨"assistant", m.content⟩
    else ⟨"user", c ++ " said: " ++ m.content⟩

/-- Rust `Messages::find_common_ancestor` (`message.rs` lines 460-467): the
source counts the agreeing prefix of the zipped paths and slices `path1` to
that length, i.e. the longest common prefix of the two paths. -/
def find_common_ancestor : List Nat → List Nat → List Nat
| a :: as_, b :: bs => if a = b then a :: find_common_ancestor as_ bs else []
| _, _ => []

/-- Rust `Messages::get_children_from_self` (`message.rs` lines 220-241):
walk down `path_to_end` collecting the visited child at each step; a step
whose index is out of range silently stops the walk (no error). The source
guards the recursive call with `path_to_end.len() > 1`; recursing on an
empty path returns `[]`, so the guard is semantically redundant. -/
def Messages.get_children_from_self : Messages → List Nat → List Messages
| _, [] => []
| m, i :: rest =>
  if h : i < m.child.length then
    (m.child.get ⟨i, h⟩) :: (m.child.get ⟨i, h⟩).get_children_from_self rest
  else []

/-- First-occurrence filter modelling the `visited_paths: HashSet<String>`
of `assemble_context`, which is keyed by `format!("{:?}", node.path)` — a
string injective in the path value. -/
def dedupByPath : List (List Nat) → List Messages → List Messages
| _, [] => []
| seen, n :: ns =>
  if n.path ∈ seen then dedupByPath seen ns
  else n :: dedupByPath (n.path :: seen) ns

/-- Rust `Messages::assemble_context` (`message.rs` lines 480-538). The
function returns plain data — it has no error channel: an unresolvable
common ancestor yields `[]`, and unresolvable steps of either branch walk
are silently dropped by `get_children_from_self`. -/
def Messages.assemble_context (m : Messages) (start_path end_path : List Nat)
    (current_speaker : Role) : List ApiMessage :=
  let common := find_common_ancestor start_path end_path
  match m.get_node_by_path common with
  | none => []
  | some ancestor =>
    let startNodes :=
      if common.length < start_path.length then
        ancestor.get_children_from_self (start_path.drop common.length)
      else
        [ancestor]
    let endNodes :=
      if common.length < end_path.length then
        ancestor.get_children_from_self (end_path.drop common.length)
      else
        []
    (dedupByPath [] (startNodes ++ endNodes)).map (fun n => n.to_api_format current_speaker)

/-! ## Claim C3 -/

/-- C3 counterexample: `assemble_context` does not fail on unresolvable
paths. Here the end path `[0, 5]` cannot be resolved past `[0]` (the child
has no children), yet the call returns a silently truncated one-element
list instead of an `InvalidPath` error — indeed its return type in the
source (`Vec<HashMap<String, String>>`) has no error channel at all. -/
theorem assemble_context_silently_truncates :
    (Messages.mk [] .system "root" [Messages.mk [0] .user "hi" []]).assemble_context
      [0] [0, 5] .user = [ApiMessage.mk "user" "hi"] := by rfl

/-- C3 amended: `assemble_context` never reports an error; when the common
ancestor of the two paths does not resolve, it silently returns the empty
message list (and unresolvable branch-walk steps silently truncate the
walk, as the counterexample shows). -/
theorem assemble_context_unresolved_ancestor_yields_empty
    (m : Messages) (start_path end_path : List Nat) (current_speaker : Role)
    (h : m.get_node_by_path (find_common_ancestor start_path end_path) = none) :
    m.assemble_context start_path end_path current_speaker = [] := by
  simp only [Messages.assemble_context, h]

/-- Witness for the amended C3: the common ancestor `[5]` of `[5, 0]` and
`[5, 1]` does not resolve in a childless root, and the result is `[]`. -/
theorem assemble_context_unresolved_ancestor_yields_empty_witness :
    (Messages.mk [] .system "root" []).get_node_by_path
      (find_common_ancestor [5, 0] [5, 1]) = none ∧
    (Messages.mk [] .system "root" []).assemble_context [5, 0] [5, 1] .user = [] :=
  ⟨by rfl,
   assemble_context_unresolved_ancestor_yields_empty
     (Messages.mk [] .system "root" []) [5, 0] [5, 1] .user (by rfl)⟩

/-! ## Claim C4 -/

/-- C4: the per-node wire transform maps System/User/Assistant to their own
role name with unmodified content, and maps `Character(c)` to role
"assistant" with unmodified content exactly when the current speaker is
`Character(c)`, otherwise to role "user" with content rewritten to
`"{c} said: {content}"`. -/
theorem to_api_format_spec (m : Messages) (spk : Role) :
    (m.role = .system → m.to_api_format spk = ⟨"system", m.content⟩) ∧
    (m.role = .user → m.to_api_format spk = ⟨"user", m.content⟩) ∧
    (m.role = .assistant → m.to_api_format spk = ⟨"assistant", m.content⟩) ∧
    (∀ c, m.role = .character c →
      (spk = .character c → m.to_api_format spk = ⟨"assistant", m.content⟩) ∧
      (spk ≠ .character c → m.to_api_format spk = ⟨"user", c ++ " said: " ++ m.content⟩)) := by
  refine ⟨?_, ?_, ?_, ?_⟩ <;>
    first
    | (intro h; simp [Messages.to_api_format, h])
    | (intro c h
       constructor
       · intro hs
         simp [Messages.to_api_format, h, hs]
       · intro hs
         simp only [Messages.to_api_format, h]
         rw [if_neg (by simpa using fun he => hs he.symm)])

/-- Witness for C4: the spec's concrete example. A node with role
`Character("Alice")` and content "Hi Bob" maps to assistant/"Hi Bob" when the
speaker is `Character("Alice")` and to user/"Alice said: Hi Bob" when the
speaker is `Assistant`. -/
theorem to_api_format_spec_witness :
    (Messages.mk [] (.character "Alice") "Hi Bob" []).to_api_format (.character "Alice")
      = ⟨"assistant", "Hi Bob"⟩ ∧
    (Messages.mk [] (.character "Alice") "Hi Bob" []).to_api_format .assistant
      = ⟨"user", "Alice said: Hi Bob"⟩ :=
  ⟨(((to_api_format_spec (Messages.mk [] (.character "Alice") "Hi Bob" [])
        (.character "Alice")).2.2.2 "Alice" (by rfl)).1 (by rfl)),
   (((to_api_format_spec (Messages.mk [] (.character "Alice") "Hi Bob" [])
        .assistant).2.2.2 "Alice" (by rfl)).2 (by decide))⟩

/-! ## JSON model (`serde_json::Value`)

JSON numbers are modelled as integers: every numeric payload the claims
touch is an integer token count, and floating point is out of scope for the
embedding (the parser rejects fraction/exponent tails). -/

/-- JSON value, mirroring `serde_json::Value` (constructor per serde
variant; object member order is the textual order, which suffices for the
values in scope). -/
inductive JValue where
| jNull
| jBool (b : Bool)
| jNum (n : Int)
| jStr (s : String)
| jArr (elems : List JValue)
| jObj (members : List (String × JValue))
deriving Repr

/-- Leading-whitespace skip for the JSON parser. -/
def skipWs (cs : List Char) : List Char := cs.dropWhile isWsChar

/-- ASCII digit test, by code point. -/
def isAsciiDigit (c : Char) : Bool :=
  Nat.ble 48 c.toNat && Nat.ble c.toNat 57

/-- Numeric value of an ASCII digit, by code point. -/
def asciiDigitVal (c : Char) : Nat := c.toNat - 48

/-- Greedy digit-run accumulator. -/
def readDigits : List Char → Nat → Nat × List Char
| [], acc => (acc, [])
| c :: cs, acc =>
  if isAsciiDigit c then readDigits cs (10 * acc + asciiDigitVal c) else (acc, c :: cs)

/-- Detects a fraction or exponent tail after an integer literal; such
numbers are floats, which this model does not represent. -/
def startsFloatTail : List Char → Bool
| '.' :: _ => true
| 'e' :: _ => true
| 'E' :: _ => true
| _ => false

/-- Hexadecimal digit value (for `\u` escapes), by code point: decimal
digits, then the lowercase and uppercase letter ranges. -/
def hexDigitValue (c : Char) : Option Nat :=
  let n := c.toNat
  if Nat.ble 48 n && Nat.ble n 57 then some (n - 48)
  else if Nat.ble 97 n && Nat.ble n 102 then some (n - 87)
  else if Nat.ble 65 n && Nat.ble n 70 then some (n - 55)
  else none

/-- JSON string-body parser (after the opening quote): handles the standard
escapes and `\uXXXX` for scalar values (surrogate pairs are out of scope). -/
def parseStrBody : Nat → List Char → Option (List Char × List Char)
| 0, _ => none
| _, [] => none
| fuel + 1, c :: cs =>
  if c = '"' then some ([], cs)
  else if c = '\\' then
    match cs with
    | [] => none
    | e :: cs2 =>
      if e = '"' then (parseStrBody fuel cs2).map (fun p => ('"' :: p.1, p.2))
      else if e = '\\' then (parseStrBody fuel cs2).map (fun p => ('\\' :: p.1, p.2))
      else if e = '/' then (parseStrBody fuel cs2).map (fun p => ('/' :: p.1, p.2))
      else if e = 'n' then (parseStrBody fuel cs2).map (fun p => ('\n' :: p.1, p.2))
      else if e = 't' then (parseStrBody fuel cs2).map (fun p => ('\t' :: p.1, p.2))
      else if e = 'r' then (parseStrBody fuel cs2).map (fun p => ('\r' :: p.1, p.2))
      else if e = 'b' then (parseStrBody fuel cs2).map (fun p => (Char.ofNat 8 :: p.1, p.2))
      else if e = 'f' then (parseStrBody fuel cs2).map (fun p => (Char.ofNat 12 :: p.1, p.2))
      else if e = 'u' then
        match cs2 with
        | h1 :: h2 :: h3 :: h4 :: cs3 =>
          match hexDigitValue h1, hexDigitValue h2, hexDigitValue h3, hexDigitValue h4 with
          | some a, some b, some c2, some d =>
            (parseStrBody fuel cs3).map
              (fun p => (Char.ofNat (4096 * a + 256 * b + 16 * c2 + d) :: p.1, p.2))
          | _, _, _, _ => none
        | _ => none
      else none
  else (parseStrBody fuel cs).map (fun p => (c :: p.1, p.2))

mutual

/-- Fuelled JSON value parser (recursive descent, as `serde_json::from_str`
specialised to integer numbers). -/
def parseVal : Nat → List Char → Option (JValue × List Char)
| 0, _ => none
| fuel + 1, cs =>
  match skipWs cs with
  | [] => none
  | c :: tl =>
    if c = 'n' then (stripPre "ull".data tl).map (fun rest => (.jNull, rest))
    else if c = 't' then (stripPre "rue".data tl).map (fun rest => (.jBool true, rest))
    else if c = 'f' then (stripPre "alse".data tl).map (fun rest => (.jBool false, rest))
    else if c = '"' then (parseStrBody (fuel + 1) tl).map (fun p => (.jStr ⟨p.1⟩, p.2))
    else if c = '[' then (parseArrItems fuel tl).map (fun p => (.jArr p.1, p.2))
    else if c = '\x7b' then (parseObjItems fuel tl).map (fun p => (.jObj p.1, p.2))
    else if c = '-' then
      match tl with
      | [] => none
      | d :: tl2 =>
        if isAsciiDigit d then
          match readDigits tl2 (asciiDigitVal d) with
          | (n, r) => if startsFloatTail r then none else some (.jNum (-(n : Int)), r)
        else none
    else if isAsciiDigit c then
      match readDigits tl (asciiDigitVal c) with
      | (n, r) => if startsFloatTail r then none else some (.jNum (n : Int), r)
    else none

/-- Array-items parser, entered after `[`. -/
def parseArrItems : Nat → List Char → Option (List JValue × List Char)
| 0, _ => none
| fuel + 1, cs =>
  match skipWs cs with
  | ']' :: rest => some ([], rest)
  | cs2 =>
    match parseVal fuel cs2 with
    | none => none
    | some (j, r) =>
      match skipWs r with
      | ',' :: r2 =>
        match parseArrItems fuel r2 with
        | some (js, r3) => some (j :: js, r3)
        | none => none
      | ']' :: r2 => some ([j], r2)
      | _ => none

/-- Object-members parser, entered after the opening brace. -/
def parseObjItems : Nat → List Char → Option (List (String × JValue) × List Char)
| 0, _ => none
| fuel + 1, cs =>
  match skipWs cs with
  | '\x7d' :: rest => some ([], rest)
  | '"' :: rest =>
    match parseStrBody (fuel + 1) rest with
    | none => none
    | some (k, r) =>
      match skipWs r with
      | ':' :: r2 =>
        match parseVal fuel r2 with
        | none => none
        | some (j, r3) =>
          match skipWs r3 with
          | ',' :: r4 =>
            match parseObjItems fuel r4 with
            | some (ms, r5) => some ((⟨k⟩, j) :: ms, r5)
            | none => none
          | '\x7d' :: r4 => some ([(⟨k⟩, j)], r4)
          | _ => none
      | _ => none
  | _ => none

end

/-- The model's `serde_json::from_str::<Value>`: parse one value and require
only whitespace afterwards. -/
def parseJson (s : String) : Option JValue :=
  match parseVal (2 * s.data.length + 2) s.data with
  | some (j, rest) => if (skipWs rest).isEmpty then some j else none
  | none => none

/-- Lowercase hexadecimal digit character, by code point. -/
def hexChar (d : Nat) : Char := Char.ofNat (if Nat.ble d 9 then 48 + d else 87 + d)

/-- JSON string escaping as the serde serializer performs it, dispatching on
the code point. -/
def escapeJsonChar (c : Char) : List Char :=
  match c.toNat with
  | 34 => ['\\', '"']
  | 92 => ['\\', '\\']
  | 10 => ['\\', 'n']
  | 9 => ['\\', 't']
  | 13 => ['\\', 'r']
  | 8 => ['\\', 'b']
  | 12 => ['\\', 'f']
  | n => if Nat.blt n 32 then ['\\', 'u', '0', '0', hexChar (n / 16), hexChar (n % 16)] else [c]

/-- Serialized JSON string literal (quotes plus escaped body). -/
def serStr (s : String) : List Char :=
  ('"' :: s.data.flatMap escapeJsonChar).concat '"'

/-- Decimal digits of a natural number, most significant last in the
accumulator (fuelled, evaluates by kernel reduction). -/
def decimalDigitsAux : Nat → Nat → List Char → List Char
| 0, _, acc => acc
| fuel + 1, n, acc =>
  if Nat.blt n 10 then Char.ofNat (48 + n) :: acc
  else decimalDigitsAux fuel (n / 10) (Char.ofNat (48 + n % 10) :: acc)

/-- Decimal representation of a natural number. -/
def decimalDigits (n : Nat) : List Char := decimalDigitsAux (n + 1) n []

/-- Decimal representation of an integer (minus sign, then digits). -/
def intToChars (n : Int) : List Char :=
  if n < 0 then '-' :: decimalDigits n.natAbs else decimalDigits n.natAbs

mutual

/-- Compact JSON serialization — Rust `Value::to_string` via `Display`. -/
def serJson : JValue → List Char
| .jNull => ['n', 'u', 'l', 'l']
| .jBool true => ['t', 'r', 'u', 'e']
| .jBool false => ['f', 'a', 'l', 's', 'e']
| .jNum n => intToChars n
| .jStr s => serStr s
| .jArr xs => '[' :: serArrItems xs ++ [']']
| .jObj ms => '\x7b' :: serObjItems ms ++ ['\x7d']

/-- Comma-joined compact serialization of array items. -/
def serArrItems : List JValue → List Char
| [] => []
| [x] => serJson x
| x :: y :: xs => serJson x ++ ',' :: serArrItems (y :: xs)

/-- Comma-joined compact serialization of object members. -/
def serObjItems : List (String × JValue) → List Char
| [] => []
| [(k, v)] => serStr k ++ ':' :: serJson v
| (k, v) :: m :: ms => serStr k ++ ':' :: serJson v ++ ',' :: serObjItems (m :: ms)

end

/-- Rust `Value::to_string`: compact JSON serialization of a value. -/
def JValue.toCompactString (j : JValue) : String := ⟨serJson j⟩

/-- Two-space indentation used by serde's pretty printer. -/
def indentChars (n : Nat) : List Char := List.replicate (2 * n) ' '

mutual

/-- Pretty JSON serialization — Rust `serde_json::to_string_pretty`
(two-space indent; scalars identical to the compact form). -/
def serJsonP : Nat → JValue → List Char
| _, .jNull => ['n', 'u', 'l', 'l']
| _, .jBool true => ['t', 'r', 'u', 'e']
| _, .jBool false => ['f', 'a', 'l', 's', 'e']
| _, .jNum n => intToChars n
| _, .jStr s => serStr s
| _, .jArr [] => ['[', ']']
| ind, .jArr (x :: xs) =>
  '[' :: '\n' :: serArrItemsP (ind + 1) (x :: xs) ++ '\n' :: indentChars ind ++ [']']
| _, .jObj [] => ['\x7b', '\x7d']
| ind, .jObj (m :: ms) =>
  '\x7b' :: '\n' :: serObjItemsP (ind + 1) (m :: ms) ++ '\n' :: indentChars ind ++ ['\x7d']

/-- Pretty-printed array items, one per line. -/
def serArrItemsP : Nat → List JValue → List Char
| ind, [] => []
| ind, [x] => indentChars ind ++ serJsonP ind x
| ind, x :: y :: xs =>
  indentChars ind ++ serJsonP ind x ++ ',' :: '\n' :: serArrItemsP ind (y :: xs)

/-- Pretty-printed object members, one per line. -/
def serObjItemsP : Nat → List (String × JValue) → List Char
| ind, [] => []
| ind, [(k, v)] => indentChars ind ++ serStr k ++ ':' :: ' ' :: serJsonP ind v
| ind, (k, v) :: m :: ms =>
  indentChars ind ++ serStr k ++ ':' :: ' ' :: serJsonP ind v ++ ',' :: '\n' ::
    serObjItemsP ind (m :: ms)

end

/-- Rust `serde_json::to_string_pretty`. -/
def JValue.toPrettyString (j : JValue) : String := ⟨serJsonP 0 j⟩

/-- Member lookup in an object body (parsed objects in scope have unique
keys, so first-match lookup models the serde map). -/
def lookupMember : List (String × JValue) → String → Option JValue
| [], _ => none
| (k2, v) :: ms, k => if k2 = k then some v else lookupMember ms k

/-- serde `Value::get` with a string key: `some` only on objects that
contain the key. -/
def JValue.getKey : JValue → String → Option JValue
| .jObj ms, k => lookupMember ms k
| _, _ => none

/-- serde `Value::get` with a numeric index: arrays only. -/
def JValue.getIdx : JValue → Nat → Option JValue
| .jArr xs, i => xs.get? i
| _, _ => none

/-- serde `Value::index` (`value[key]`): `Null` for missing keys and for
non-objects. -/
def JValue.atKey (j : JValue) (k : String) : JValue := (j.getKey k).getD .jNull

/-- serde `Value::as_str`. -/
def JValue.asStr : JValue → Option String
| .jStr s => some s
| _ => none

/-- serde `Value::as_i64` (this model's numbers are integers; every input in
scope is i64-ranged). -/
def JValue.asI64 : JValue → Option Int
| .jNum n => some n
| _ => none

/-- serde `Value::as_array`. -/
def JValue.asArray : JValue → Option (List JValue)
| .jArr xs => some xs
| _ => none

/-- serde `Value::is_null`. -/
def JValue.isNull : JValue → Bool
| .jNull => true
| _ => false

/-! ## Streaming response reduction (`chat_base.rs` lines 403-465) -/

/-- Chat error enumeration (`chat_base.rs` lines 27-82). -/
inductive ChatError where
| assembleOutputDescriptionError
| httpError (status : Nat)
| timeoutError
| parseResponseError
| missingUsageData
| getJsonError
| getFunctionError
| noCharacterPrompts
| undefinedCharacter (name : String)
| noCharacterSelected
| unknownError
deriving DecidableEq, Repr

/-- Accumulator of `get_content_from_stream_resp` (`chat_base.rs` lines
409-413): content buffer plus latest usage value. -/
structure StreamResult where
  content : String
  usage : Option JValue
deriving Repr

/-- SSE line filter (`chat_base.rs` line 423): keep lines that are neither
empty nor the sentinel. -/
def sseKeep (l : String) : Bool := !(l == "") && !(l == "data: [DONE]")

/-- Strip the optional "data: " prefix (`chat_base.rs` line 427). -/
def stripDataPre (l : String) : String :=
  match stripPre "data: ".data l.data with
  | some rest => ⟨rest⟩
  | none => l

/-- Fragments contributed by one parsed SSE event: every
`choices[*].delta.content` string value, in array order (`chat_base.rs`
lines 437-447). -/
def eventFragments (j : JValue) : String :=
  match (j.getKey "choices").bind JValue.asArray with
  | none => ""
  | some choices =>
    ⟨choices.flatMap (fun choice =>
      match (choice.getKey "delta").bind
          (fun d => (d.getKey "content").bind JValue.asStr) with
      | some s => s.data
      | none => [])⟩

/-- Usage update of one parsed event (`chat_base.rs` lines 451-453): a
present non-null `usage` field overwrites the accumulator. -/
def eventUsage (j : JValue) : Option JValue :=
  match j.getKey "usage" with
  | some u => if u.isNull then none else some u
  | none => none

/-- Per-line step of the streaming fold (`chat_base.rs` lines 424-455):
strip the optional prefix, parse JSON — a malformed line aborts the whole
fold with `ParseResponseError` — then append the delta fragments and update
the usage last-write-wins. -/
def processSseLine (st : StreamResult) (line : String) : Except ChatError StreamResult :=
  match parseJson (stripDataPre line) with
  | none => .error .parseResponseError
  | some j =>
    .ok { content := st.content ++ eventFragments j,
          usage := (eventUsage j).or st.usage }

/-- The `try_for_each` over the kept lines of one chunk: sequential,
short-circuiting on the first error. -/
def foldSseLines : List String → StreamResult → Except ChatError StreamResult
| [], st => .ok st
| l :: ls, st =>
  match processSseLine st l with
  | .ok st2 => foldSseLines ls st2
  | .error e => .error e

/-- Per-chunk step (`chat_base.rs` lines 420-455): split the chunk on
newlines, keep non-empty non-sentinel lines, process them sequentially. -/
def processSseChunk (st : StreamResult) (chunk : String) : Except ChatError StreamResult :=
  foldSseLines ((splitLines chunk).filter sseKeep) st

/-- The `try_fold` over the received chunks: sequential,
short-circuiting. -/
def foldSseChunks : List String → StreamResult → Except ChatError StreamResult
| [], st => .ok st
| c :: cs, st =>
  match processSseChunk st c with
  | .ok st2 => foldSseChunks cs st2
  | .error e => .error e

/-- Rust `BaseChat::get_content_from_stream_resp` (`chat_base.rs` lines
403-465) as a pure sequential fold over the received chunk texts (the
transport is modelled as having delivered every chunk; a transport error
aborts before this logic runs). -/
def getStreamResult (chunks : List String) : Except ChatError StreamResult :=
  foldSseChunks chunks ⟨"", none⟩

/-- The text returned to the caller: the accumulated content buffer. -/
def get_content_from_stream_resp (chunks : List String) : Except ChatError String :=
  (getStreamResult chunks).map StreamResult.content

/-- All kept SSE lines of a chunk sequence, in processing order. -/
def sseLines (chunks : List String) : List String :=
  chunks.flatMap (fun c => (splitLines c).filter sseKeep)

/-- The parsed event of one kept line (used to state the fold result). -/
def lineEvent (l : String) : Option JValue := parseJson (stripDataPre l)

/-- Simple in-order string concatenation. -/
def joinStrs : List String → String
| [] => ""
| s :: ss => s ++ joinStrs ss

theorem foldSseLines_append (xs ys : List String) (st : StreamResult) :
    foldSseLines (xs ++ ys) st =
      match foldSseLines xs st with
      | .ok st2 => foldSseLines ys st2
      | .error e => .error e := by
  induction xs generalizing st with
  | nil => simp [foldSseLines]
  | cons x xs ih =>
    simp only [List.cons_append, foldSseLines]
    cases processSseLine st x with
    | error e => rfl
    | ok st1 => exact ih st1

theorem getStreamResult_flatten (chunks : List String) (st : StreamResult) :
    foldSseChunks chunks st = foldSseLines (sseLines chunks) st := by
  induction chunks generalizing st with
  | nil => rfl
  | cons c cs ih =>
    simp only [foldSseChunks, sseLines, List.flatMap_cons, processSseChunk,
      foldSseLines_append]
    cases h : foldSseLines ((splitLines c).filter sseKeep) st with
    | error e => rfl
    | ok st1 =>
      simpa only [sseLines] using ih st1

theorem getLast?_cons_or {α : Type} (u : α) (xs : List α) :
    (u :: xs).getLast? = Option.or xs.getLast? (some u) := by
  induction xs generalizing u with
  | nil => rfl
  | cons y ys ih =>
    rw [List.getLast?_cons_cons, ih y]
    cases h : ys.getLast? <;> simp [Option.or]

theorem sse_fold_spec (lines : List String) (st : StreamResult)
    (h : lines.all (fun l => (lineEvent l).isSome) = true) :
    foldSseLines lines st = .ok
      { content := st.content ++ joinStrs (lines.map
          (fun l => eventFragments ((lineEvent l).getD .jNull))),
        usage := Option.or
          ((lines.filterMap (fun l => (lineEvent l).bind eventUsage)).getLast?)
          st.usage } := by
  induction lines generalizing st with
  | nil => simp [foldSseLines, joinStrs, Option.or]
  | cons l ls ih =>
    simp only [List.all_cons, Bool.and_eq_true] at h
    obtain ⟨hl, hls⟩ := h
    cases hj : lineEvent l with
    | none => rw [hj] at hl; simp at hl
    | some j =>
      have hline : parseJson (stripDataPre l) = some j := hj
      simp only [foldSseLines, processSseLine, hline]
      rw [ih _ hls]
      simp only [Except.ok.injEq, StreamResult.mk.injEq, List.map_cons,
        List.filterMap_cons, hj, Option.getD_some, Option.some_bind, joinStrs]
      constructor
      · exact String.append_assoc _ _ _
      · cases hu : eventUsage j with
        | none => simp [Option.or]
        | some u =>
          cases hx : (ls.filterMap (fun l => (lineEvent l).bind eventUsage)).getLast? <;>
            simp [getLast?_cons_or, hx, Option.or]

/-! ## Claim C5 -/

/-- C5: for every chunk sequence whose kept SSE lines (after splitting each
chunk on newlines, discarding empty lines and the "data: [DONE]" sentinel,
and stripping an optional "data: " prefix) all parse as JSON, the streaming
reduction succeeds and returns the in-order concatenation of every
`choices[*].delta.content` fragment (chunks processed sequentially,
fragments in array order), with any non-null `usage` field retained
last-write-wins. -/
theorem stream_reduction_concatenates_in_order (chunks : List String)
    (h : (sseLines chunks).all (fun l => (lineEvent l).isSome) = true) :
    getStreamResult chunks = .ok
      { content := joinStrs ((sseLines chunks).map
          (fun l => eventFragments ((lineEvent l).getD .jNull))),
        usage := ((sseLines chunks).filterMap
          (fun l => (lineEvent l).bind eventUsage)).getLast? } := by
  unfold getStreamResult
  rw [getStreamResult_flatten, sse_fold_spec _ _ h]
  simp only [Except.ok.injEq, StreamResult.mk.injEq]
  constructor
  · simp
  · cases hx : ((sseLines chunks).filterMap (fun l => (lineEvent l).bind eventUsage)).getLast? <;>
      simp [Option.or, hx]

/-- The spec's concrete three-chunk SSE exchange. -/
def c5Chunks : List String :=
  ["data: \x7b\"choices\":[\x7b\"delta\":\x7b\"content\":\"He\"\x7d\x7d]\x7d\n",
   "data: \x7b\"choices\":[\x7b\"delta\":\x7b\"content\":\"llo\"\x7d\x7d]\x7d\n",
   "data: [DONE]\n"]

/-- Witness for C5: the spec's concrete chunk sequence reduces to exactly
"Hello" (and records no usage). -/
theorem stream_reduction_concatenates_in_order_witness :
    ((sseLines c5Chunks).all (fun l => (lineEvent l).isSome) = true) ∧
    getStreamResult c5Chunks = .ok ⟨"Hello", none⟩ ∧
    get_content_from_stream_resp c5Chunks = .ok "Hello" :=
  ⟨by decide,
   (stream_reduction_concatenates_in_order c5Chunks (by decide)).trans (by rfl),
   by rfl⟩

/-! ## Claim C6: unary response reduction (`chat_base.rs` lines 252-334) -/

/-- Rust `as i32` wrap-around cast of an integer (the running counter and
its updates live in i32; additions wrap in release builds). -/
def wrapI32 (n : Int) : Int := (n + 2 ^ 31) % 2 ^ 32 - 2 ^ 31

/-- The usage-accounting step of `BaseChat::get_response` (`chat_base.rs`
lines 291-297): read `parsed["usage"]["total_tokens"]` via `as_i64`; a
missing or non-integer value is a `MissingUsageData` error, otherwise the
value is added (as i32) to the chat's running counter. -/
def get_response_usage_step (usage : Int) (parsed : JValue) : Except ChatError Int :=
  match ((parsed.atKey "usage").atKey "total_tokens").asI64 with
  | none => .error .missingUsageData
  | some n => .ok (wrapI32 (usage + wrapI32 n))

/-- Rust `BaseChat::get_content_from_resp` (`chat_base.rs` lines 322-334):
locate `choices[0].message.content` and return `content.to_string()` — the
serde `Display` (JSON) serialization of the value, not `as_str` — else a
`ParseResponseError`. -/
def get_content_from_resp (resp : JValue) : Except ChatError String :=
  match (((resp.getKey "choices").bind (fun c => c.getIdx 0)).bind
      (fun c => c.getKey "message")).bind (fun m => m.getKey "content") with
  | some content => .ok content.toCompactString
  | none => .error .parseResponseError

/-- The claim's failing input: a well-formed 2xx JSON body. -/
def c6Parsed : JValue :=
  JValue.jObj [("choices", JValue.jArr [JValue.jObj [("message",
    JValue.jObj [("content", JValue.jStr "Hello")])]]),
    ("usage", JValue.jObj [("total_tokens", JValue.jNum 5)])]

/-- The same body without a `usage` key. -/
def c6ParsedNoUsage : JValue :=
  JValue.jObj [("choices", JValue.jArr [JValue.jObj [("message",
    JValue.jObj [("content", JValue.jStr "Hello")])]])]

/-- C6: at the concrete well-formed response body
`{"choices":[{"message":{"content":"Hello"}}],"usage":{"total_tokens":5}}`,
the unary extraction returns the JSON serialization `"\"Hello\""` — with
surrounding quotes — rather than the bare string value "Hello": the source
calls `Value::to_string` (serde's JSON `Display`) where the streaming path
and `ChatTool::get_json` use `as_str`. The usage half of the claim does
hold: `total_tokens` is added to the running counter, and a body without a
`usage` key fails with `MissingUsageData` rather than counting zero. -/
theorem unary_extraction_keeps_json_quotes :
    parseJson "\x7b\"choices\":[\x7b\"message\":\x7b\"content\":\"Hello\"\x7d\x7d],\"usage\":\x7b\"total_tokens\":5\x7d\x7d"
      = some c6Parsed ∧
    get_content_from_resp c6Parsed = .ok "\"Hello\"" ∧
    "\"Hello\"" ≠ "Hello" ∧
    get_response_usage_step 0 c6Parsed = .ok 5 ∧
    get_response_usage_step 0 c6ParsedNoUsage = .error .missingUsageData :=
  ⟨by rfl, by rfl, by decide, by rfl, by rfl⟩

/-! ## Tool-call extraction and dispatch (`tool_schema.rs`, `chat_single.rs`) -/

/-- Tool-call error enumeration (`chat_single.rs` lines 24-49). -/
inductive ToolCallError where
| parseFunctionCall
| functionNotFound (name : String)
| functionExecution (name : String)
| serializeResult
| deserializeArguments (detail : String)
| getJson (detail : String)
| extractFunctionCall (detail : String)
| missingField (field : String)
deriving DecidableEq, Repr

/-- The `thiserror` display strings of `ToolCallError` (`chat_single.rs`
lines 24-49), used when embedding an error into a result placeholder. -/
def ToolCallError.display : ToolCallError → String
| .parseFunctionCall => "Failed to parse function call"
| .functionNotFound n => "Function \x27" ++ n ++ "\x27 not found"
| .functionExecution n => "Failed to execute function \x27" ++ n ++ "\x27"
| .serializeResult => "Failed to serialize function result"
| .deserializeArguments d => "Failed to deserialize arguments: " ++ d
| .getJson d => "Failed to get json: " ++ d
| .extractFunctionCall d => "Failed to extract function call from: " ++ d
| .missingField f => "Missing field: " ++ f

/-- Worker for `extract_tool_uses`: find `<ToolUse>`, then the next
`</ToolUse>`, capture the trimmed body, continue after the close tag —
the scan of the non-greedy `(?s)<ToolUse>(.*?)</ToolUse>` regex with
`captures_iter`. -/
def extractToolUsesAux : Nat → List Char → List String
| 0, _ => []
| fuel + 1, cs =>
  match splitFirstSub "<ToolUse>".data cs with
  | none => []
  | some (_, afterOpen) =>
    match splitFirstSub "</ToolUse>".data afterOpen with
    | none => []
    | some (body, afterClose) =>
      (⟨trimChars body⟩ : String) :: extractToolUsesAux fuel afterClose

/-- Rust `extract_tool_uses` (`tool_schema.rs` lines 63-70). -/
def extract_tool_uses (input : String) : List String :=
  extractToolUsesAux (input.data.length + 1) input.data

/-- Tool registry model: the process-wide `DashMap<String, ToolFunction>`;
handler failures carry their display text. -/
abbrev ToolRegistry := List (String × (JValue → Except String JValue))

/-- Registry lookup, `registry.get(function_name)`. -/
def registryGet : ToolRegistry → String → Option (JValue → Except String JValue)
| [], _ => none
| (k, f) :: rest, name => if k = name then some f else registryGet rest name

/-- Rust `SingleChat::process_tool_call` (`chat_single.rs` lines 194-276).
The secondary structured-inference call `ChatTool::get_function` is an
external LLM exchange, modelled by the oracle `getFunction` (`none` is its
failure, which the source converts to `ParseFunctionCall`); serde's
deserialization error message is abstracted by the offending text; the
model's serializer is total, so the `SerializeResult` branch cannot fire.
An unregistered or failing function yields an informative `Ok` STRING, not
an error. -/
def process_tool_call (getFunction : String → Option JValue) (reg : ToolRegistry)
    (text_call : String) : Except ToolCallError String :=
  match getFunction text_call with
  | none => .error .parseFunctionCall
  | some fc =>
    match (fc.atKey "name").asStr with
    | none => .error (.missingField "name")
    | some name =>
      match (fc.atKey "arguments").asStr with
      | none => .error (.missingField "arguments")
      | some argStr =>
        match parseJson argStr with
        | none => .error (.deserializeArguments argStr)
        | some argJson =>
          match registryGet reg name with
          | some toolFn =>
            match toolFn argJson with
            | .ok result => .ok result.toPrettyString
            | .error e => .ok ("Calling function \x27" ++ name ++ "\x27 failed: " ++ e)
          | none => .ok ("Cannot find function named \x27" ++ name ++ "\x27")

/-- The result-collection loop of `get_tool_answer` (`chat_single.rs` lines
345-380): results are pushed in task order (original call order); a failed
call contributes the JSON error placeholder built from its display text.
Task-join failures cannot occur in the pure model. -/
def collectToolResults (getFunction : String → Option JValue) (reg : ToolRegistry)
    (calls : List String) : List String :=
  calls.map (fun c =>
    match process_tool_call getFunction reg c with
    | .ok r => r
    | .error e =>
      "\x7b\"error\": \"Tool call failed with error: " ++ e.display ++ "\"\x7d")

/-- The tag-removal fold of `get_tool_answer` (`chat_single.rs` lines
318-324): for each extracted (trimmed) call text, replace
`<ToolUse>{call}</ToolUse>` by the empty string. -/
def cleanToolAnswer (answer : String) (calls : List String) : String :=
  calls.foldl (fun acc call => replaceAll acc ("<ToolUse>" ++ call ++ "</ToolUse>") "") answer

/-- Rust `SingleChat::get_tool_answer` (`chat_single.rs` lines 278-389)
from the completed assistant text onwards: extract the tagged calls; with
no calls return the original text and no results, else the cleaned text
plus the per-call results in original order. -/
def get_tool_answer (getFunction : String → Option JValue) (reg : ToolRegistry)
    (answer_with_text_calls : String) : String × List String :=
  let text_calls := extract_tool_uses answer_with_text_calls
  if text_calls.isEmpty then (answer_with_text_calls, [])
  else (cleanToolAnswer answer_with_text_calls text_calls,
        collectToolResults getFunction reg text_calls)

/-! ## Claim C7 -/

/-- C7: the dispatcher returns exactly one result per detected call, in
original order; a call whose resolved function name is not registered
yields the "cannot find function" text as its own result slot (an `Ok`,
not an error), and every sibling slot is exactly what dispatching that
sibling alone would produce (no abort, no alteration). -/
theorem tool_dispatch_unregistered_slot (getFunction : String → Option JValue)
    (reg : ToolRegistry) (calls : List String) (i : Nat) (call : String)
    (fc : JValue) (name argStr : String) (argJson : JValue)
    (hcall : calls[i]? = some call)
    (hfc : getFunction call = some fc)
    (hname : (fc.atKey "name").asStr = some name)
    (hargs : (fc.atKey "arguments").asStr = some argStr)
    (hparse : parseJson argStr = some argJson)
    (hreg : registryGet reg name = none) :
    (collectToolResults getFunction reg calls).length = calls.length ∧
    (collectToolResults getFunction reg calls)[i]?
      = some ("Cannot find function named \x27" ++ name ++ "\x27") ∧
    (∀ (j : Nat) (call2 : String), calls[j]? = some call2 →
      (collectToolResults getFunction reg calls)[j]?
        = (collectToolResults getFunction reg [call2])[0]?) := by
  refine ⟨by simp [collectToolResults], ?_, ?_⟩
  · simp only [collectToolResults, List.getElem?_map, hcall, Option.map_some]
    simp [process_tool_call, hfc, hname, hargs, hparse, hreg]
  · intro j call2 hj
    simp [collectToolResults, List.getElem?_map, hj]

/-- Oracle for the C7 witness: three raw call texts resolving to functions
a, b, c with empty argument objects. -/
def c7GetFunction (t : String) : Option JValue :=
  if t = "call_a" then
    some (JValue.jObj [("name", JValue.jStr "fn_a"), ("arguments", JValue.jStr "\x7b\x7d")])
  else if t = "call_b" then
    some (JValue.jObj [("name", JValue.jStr "fn_b"), ("arguments", JValue.jStr "\x7b\x7d")])
  else if t = "call_c" then
    some (JValue.jObj [("name", JValue.jStr "fn_c"), ("arguments", JValue.jStr "\x7b\x7d")])
  else none

/-- Registry for the C7 witness: `fn_a` and `fn_c` are registered, `fn_b`
is not. -/
def c7Registry : ToolRegistry :=
  [("fn_a", fun _ => .ok (JValue.jStr "ok_a")), ("fn_c", fun _ => .ok (JValue.jStr "ok_c"))]

/-- Witness for C7: a batch of 3 calls where call 2 names an unregistered
function returns exactly 3 results in original order, with slot 2 the
"cannot find function" string and slots 1/3 the successful serialized
outputs. -/
theorem tool_dispatch_unregistered_slot_witness :
    ["call_a", "call_b", "call_c"][1]? = some "call_b" ∧
    c7GetFunction "call_b"
      = some (JValue.jObj [("name", JValue.jStr "fn_b"), ("arguments", JValue.jStr "\x7b\x7d")]) ∧
    registryGet c7Registry "fn_b" = none ∧
    collectToolResults c7GetFunction c7Registry ["call_a", "call_b", "call_c"]
      = ["\"ok_a\"", "Cannot find function named \x27fn_b\x27", "\"ok_c\""] ∧
    (collectToolResults c7GetFunction c7Registry ["call_a", "call_b", "call_c"]).length = 3 ∧
    (collectToolResults c7GetFunction c7Registry ["call_a", "call_b", "call_c"])[1]?
      = some ("Cannot find function named \x27" ++ "fn_b" ++ "\x27") :=
  ⟨by rfl, by rfl, by rfl, by rfl, by rfl,
   (tool_dispatch_unregistered_slot c7GetFunction c7Registry
      ["call_a", "call_b", "call_c"] 1 "call_b"
      (JValue.jObj [("name", JValue.jStr "fn_b"), ("arguments", JValue.jStr "\x7b\x7d")])
      "fn_b" "\x7b\x7d" (JValue.jObj [])
      (by rfl) (by rfl) (by rfl) (by rfl) (by rfl) (by rfl)).2.1⟩

/-! ## Claim C8 -/

/-- C8 (code bug): the extraction trims the captured tag body, but the
removal fold reconstructs each span as `<ToolUse>{trimmed}</ToolUse>`, so a
span with whitespace between the delimiters and the body survives in the
returned remainder. At the failing input the padded span is still present
verbatim (the replace finds nothing), while an unpadded span is removed as
the claim describes. -/
theorem clean_answer_keeps_padded_tag_span :
    extract_tool_uses "before <ToolUse> echo </ToolUse> after" = ["echo"] ∧
    (get_tool_answer (fun _ => none) [] "before <ToolUse> echo </ToolUse> after").1
      = "before <ToolUse> echo </ToolUse> after" ∧
    containsSub "<ToolUse>".data
      ((get_tool_answer (fun _ => none) [] "before <ToolUse> echo </ToolUse> after").1).data
      = true ∧
    (get_tool_answer (fun _ => none) [] "before <ToolUse>echo</ToolUse> after").1
      = "before  after" :=
  ⟨by rfl, by rfl, by rfl, by rfl⟩

/-! ## Claim C9: no node appended on failed exchanges -/

/-- The conversation-relevant state of `BaseChat` (`chat_base.rs` lines
103-108): the optional message tree and the insertion path. -/
structure BaseChatState where
  message_path : List Nat
  messages : Option Messages

/-- Rust `BaseChat::add_message` (`chat_base.rs` lines 183-191): append at
`message_path`, or create the root when the tree is empty; the source
`.unwrap()`s the inner `add`, so a failing add is a panic, modelled as
`none`. -/
def BaseChatState.add_message (st : BaseChatState) (role : Role) (content : String) :
    Option BaseChatState :=
  match st.messages with
  | some msgs =>
    match msgs.add st.message_path role content with
    | .ok msgs2 => some { st with messages := some msgs2 }
    | .error _ => none
  | none => some { st with messages := some (Messages.new role content) }

/-- Rust `SingleChat::get_content_from_resp` (`chat_single.rs` lines
109-143) with the transport/reduction outcomes supplied as oracles: pick
the streaming or unary result; on error, propagate it with the state
untouched (the early `?` returns fire before any mutation); on success,
append the Assistant node and return the content. -/
def singleGetContentFromResp (st : BaseChatState) (need_stream : Bool)
    (streamOutcome unaryOutcome : Except ChatError String) :
    Option (BaseChatState × Except ChatError String) :=
  match (if need_stream then streamOutcome else unaryOutcome) with
  | .error e => some (st, .error e)
  | .ok content =>
    match st.add_message .assistant content with
    | some st2 => some (st2, .ok content)
    | none => none

/-- Rust `MultiChat::get_answer` (`chat_multi.rs` lines 174-209) with the
reduction outcome supplied as an oracle; appends a
`Character(current_character)` node only after a successful reduction. -/
def multiGetAnswer (st : BaseChatState) (current_character : String) (need_stream : Bool)
    (streamOutcome unaryOutcome : Except ChatError String) :
    Option (BaseChatState × Except ChatError String) :=
  if current_character = "" then some (st, .error .noCharacterSelected)
  else
    match (if need_stream then streamOutcome else unaryOutcome) with
    | .error e => some (st, .error e)
    | .ok content =>
      match st.add_message (.character current_character) content with
      | some st2 => some (st2, .ok content)
      | none => none

/-- C9: when the selected (unary or streaming) exchange fails with any
transport or contract error, neither `SingleChat::get_content_from_resp`
nor `MultiChat::get_answer` appends a node — each returns the error with
the message tree exactly as it was; and on success the returned state is
precisely the old state with the response node appended, i.e. a node is
appended only after the reduction has fully succeeded. -/
theorem failed_exchange_appends_no_node (st : BaseChatState) (need_stream : Bool)
    (so uo : Except ChatError String) (e : ChatError) (cc : String)
    (herr : (if need_stream then so else uo) = .error e) (hcc : cc ≠ "") :
    singleGetContentFromResp st need_stream so uo = some (st, .error e) ∧
    multiGetAnswer st cc need_stream so uo = some (st, .error e) ∧
    (∀ content, (if need_stream then so else uo) = .ok content →
      singleGetContentFromResp st need_stream so uo
        = (st.add_message .assistant content).map (fun st2 => (st2, .ok content))) := by
  refine ⟨?_, ?_, ?_⟩
  · simp [singleGetContentFromResp, herr]
  · simp only [multiGetAnswer, if_neg hcc]
    simp [herr]
  · intro content hok
    rw [hok] at herr
    simp at herr

/-- Witness for C9: a timeout on a unary exchange leaves a concrete one-node
tree untouched in both chat variants. -/
theorem failed_exchange_appends_no_node_witness :
    (if false then (.ok "s" : Except ChatError String) else .error .timeoutError)
      = .error .timeoutError ∧
    ("alice" : String) ≠ "" ∧
    singleGetContentFromResp ⟨[], some (Messages.new .user "hi")⟩ false (.ok "s")
        (.error .timeoutError)
      = some (⟨[], some (Messages.new .user "hi")⟩, .error .timeoutError) ∧
    multiGetAnswer ⟨[], some (Messages.new .user "hi")⟩ "alice" false (.ok "s")
        (.error .timeoutError)
      = some (⟨[], some (Messages.new .user "hi")⟩, .error .timeoutError) :=
  ⟨by rfl, by decide,
   (failed_exchange_appends_no_node ⟨[], some (Messages.new .user "hi")⟩ false (.ok "s")
      (.error .timeoutError) .timeoutError "alice" (by rfl) (by decide)).1,
   (failed_exchange_appends_no_node ⟨[], some (Messages.new .user "hi")⟩ false (.ok "s")
      (.error .timeoutError) .timeoutError "alice" (by rfl) (by decide)).2.1⟩

/-! ## Claim C10 -/

/-- C10: converting a string to a `Role` and back is the identity; the strings
"system"/"user"/"assistant" parse to the built-in roles, so `Role::from` never
produces a `Character` carrying one of those names; the reverse direction is
not injective: `Character("user")`, constructible directly, stringifies to
"user" while being distinct from `User`. -/
theorem role_ofStr_toStr_roundtrip :
    (∀ s : String, (Role.ofStr s).toStr = s) ∧
    (Role.ofStr "system" = .system ∧ Role.ofStr "user" = .user ∧
      Role.ofStr "assistant" = .assistant) ∧
    (∀ s name : String, Role.ofStr s = .character name →
      ¬(name = "system" ∨ name = "user" ∨ name = "assistant")) ∧
    ((Role.character "user").toStr = "user" ∧ Role.character "user" ≠ Role.user) := by
  refine ⟨?_, ⟨rfl, rfl, rfl⟩, ?_, rfl, by decide⟩
  · intro s
    unfold Role.ofStr
    split <;> simp_all [Role.toStr]
  · intro s name h
    unfold Role.ofStr at h
    split at h <;> simp_all

/-- Witness for C10 at the concrete custom role string "alice". -/
theorem role_ofStr_toStr_roundtrip_witness :
    (Role.ofStr "alice").toStr = "alice" ∧
    ¬("alice" = "system" ∨ "alice" = "user" ∨ "alice" = "assistant") :=
  ⟨role_ofStr_toStr_roundtrip.1 "alice",
   role_ofStr_toStr_roundtrip.2.2.1 "alice" "alice" (by decide)⟩

end Rhine
